import Mathlib

/-!
Verification of `harvest_report.cjs` (MassFactory/harvest_report).

This file shallowly embeds the pure computational core of the script:
string normalization (`norm`), monetary conversions (`roundXYM`, `decXYM`),
the importance-percentage formatter (`impPct`), epoch parsing, the base-32
address codec (`b32`, `rawToAddr`), the receipt/reward aggregator (`reward`),
the block collection / sort / dedup-and-limit pipeline of `main`, the
account cache (`getAcc`) with linked-key resolution, and the CSV escaping
(`csvEscape`).  JavaScript BigInt values are modelled as `Nat` (all the
quantities involved are non-negative), JSON fields that may be `null` or
`undefined` are modelled as `Option`, and a remote call that may throw is
modelled as `Except Unit`.  JavaScript's stable `Array.prototype.sort` is
modelled by the stable `List.insertionSort`.
-/

namespace HarvestReport

/- ===================== Utils (source lines 84-110) ===================== -/

/-- Embedding of `String(s).replace(/'/g,'')`: drop every apostrophe. -/
def removeQuotes (s : String) : String :=
  ⟨s.data.filter (fun c => c ≠ '\x27')⟩

/-- Embedding of `.replace(/^0x/i,'')`: drop one leading `0x` / `0X` marker. -/
def strip0x (s : String) : String :=
  match s.data with
  | '0' :: x :: rest => if x = 'x' ∨ x = 'X' then ⟨rest⟩ else s
  | _ => s

/-- Embedding of `.toUpperCase()` (the inputs of interest are ASCII). -/
def toUpperAscii (s : String) : String :=
  ⟨s.data.map Char.toUpper⟩

/-- Core of `norm` on an actual string. -/
def normStr (s : String) : String :=
  toUpperAscii (strip0x (removeQuotes s))

/-- Embedding of `norm = s => String(s ?? '').replace(/'/g,'').replace(/^0x/i,'').toUpperCase()`;
a `null`/`undefined` argument becomes the empty string. -/
def norm (o : Option String) : String :=
  normStr (o.getD "")

/-- Embedding of JavaScript `String.prototype.padStart(w, c)`:
left-pad with `c` up to width `w`, never truncating. -/
def padStart (s : String) (w : Nat) (c : Char) : String :=
  (⟨List.replicate (w - s.length) c⟩ : String) ++ s

/- ============== Monetary conversions (source lines 96-110) ============== -/

/-- Embedding of `roundXYM(amount, div)`:
`a = BigInt(amount ?? 0); b = 10n**BigInt(div); ((a + b/2n) / b).toString()`. -/
def roundXYM (amount : Option Nat) (div : Nat) : String :=
  let a := amount.getD 0
  let b := 10 ^ div
  toString ((a + b / 2) / b)

/-- Embedding of `decXYM(amount, div)`:
`a = BigInt(amount ?? 0); b = 10n**BigInt(div);`
then the string `a/b` ++ "." ++ `(a%b).toString().padStart(div,'0')`. -/
def decXYM (amount : Option Nat) (div : Nat) : String :=
  let a := amount.getD 0
  let b := 10 ^ div
  toString (a / b) ++ "." ++ padStart (toString (a % b)) div '0'

/-- Spec-side definition (refinement target), following the spec's words:
balance display is the decimal string of `floor((amount + S/2) / S)`
computed in integer arithmetic (`S = 10^divisibility`). -/
def balanceDisplaySpec (amount S : Nat) : String :=
  toString ((amount + S / 2) / S)

/-- Spec-side definition (refinement target), following the spec's words:
reward display is integer part `amount / S`, a decimal point, and the
fractional part `amount mod S` zero-padded to width `d`. -/
def rewardDisplaySpec (amount S d : Nat) : String :=
  toString (amount / S) ++ "." ++ padStart (toString (amount % S)) d '0'

/- ============== Receipts / reward aggregator (lines 227-241) ============== -/

/-- A receipt entry as read from a statement response; every field the code
touches may be absent (`rc.recipientAddress`, `rc.targetAddress`,
`rc.mosaicId`); `rc.amount` is fed to `BigInt`, modelled as `Nat`. -/
structure Receipt where
  recipientAddress : Option String
  targetAddress : Option String
  mosaicId : Option String
  amount : Nat
deriving DecidableEq

/-- One statement entry `s`; the code reads
`s.statement?.receipts ?? s.receipts ?? []`, so we keep both possibly
absent receipt lists. -/
structure Stmt where
  statementReceipts : Option (List Receipt)
  receipts : Option (List Receipt)
deriving DecidableEq

/-- Embedding of `s.statement?.receipts ?? s.receipts ?? []`. -/
def stmtReceipts (s : Stmt) : List Receipt :=
  (s.statementReceipts.orElse (fun _ => s.receipts)).getD []

/-- Embedding of the match test
`norm(rc.recipientAddress ?? rc.targetAddress)===raw && norm(rc.mosaicId)===mosaic`. -/
def receiptMatches (raw mosaic : String) (rc : Receipt) : Bool :=
  (norm (rc.recipientAddress.orElse (fun _ => rc.targetAddress)) == raw)
    && (norm rc.mosaicId == mosaic)

/-- The contribution of one statement source to `sum`.  A source is the
outcome of one `fetchJson` call: `.error ()` when the request threw (the
`catch{}` swallows it, contributing nothing), `.ok d` a successful JSON
response whose `data` field `d` may be absent (`r.data ?? []`). -/
def srcSum (raw mosaic : String) (res : Except Unit (Option (List Stmt))) : Nat :=
  match res with
  | .error _ => 0
  | .ok d =>
    (d.getD []).foldl
      (fun acc s =>
        (stmtReceipts s).foldl
          (fun a rc => if receiptMatches raw mosaic rc then a + rc.amount else a) acc)
      0

/-- Embedding of `reward(base,h,raw,mosaic)`: the two statement queries
(`/statements/block` and `/statements/transaction`) are performed
independently, each inside its own `try{}catch{}`, and their matched
amounts accumulate into one BigInt sum. -/
def reward (raw mosaic : String) (blockRes txRes : Except Unit (Option (List Stmt))) : Nat :=
  srcSum raw mosaic blockRes + srcSum raw mosaic txRes

/- ============== Base32 address codec (lines 183-201) ============== -/

/-- The 32-symbol alphabet `B32`. -/
def B32 : List Char := "ABCDEFGHIJKLMNOPQRSTUVWXYZ234567".data

/-- Indexing `B32[i]`; the index is always masked with `&31` at call
sites, so the default is never used. -/
def b32Char (i : Nat) : Char := B32.getD i 'A'

/-- The inner `while(bits>=5){ out+=B32[(val>>(bits-5))&31]; bits-=5; }`
loop of `b32`, with an explicit structural fuel: the loop runs `bits / 5`
times, so any `fuel ≥ bits` reproduces it exactly. -/
def b32Drain : Nat → Nat → Nat → List Char → Nat × Nat × List Char
  | 0, bits, val, out => (bits, val, out)
  | fuel + 1, bits, val, out =>
    if 5 ≤ bits then
      b32Drain fuel (bits - 5) val (out ++ [b32Char ((val >>> (bits - 5)) &&& 31)])
    else (bits, val, out)

/-- The byte loop of `b32`: `val=(val<<8)|b` is a 32-bit JavaScript integer
operation, modelled with an explicit `% 2^32` (only the low 12 bits are
ever extracted, so the wrap never changes the output); after the loop one
partial group `B32[(val<<(5-bits))&31]` is appended when bits remain. -/
def b32Go : List Nat → Nat → Nat → List Char → List Char
  | [], bits, val, out =>
    if 0 < bits then out ++ [b32Char ((val <<< (5 - bits)) &&& 31)] else out
  | b :: bs, bits, val, out =>
    let val2 := ((val <<< 8) ||| b) % 2 ^ 32
    let r := b32Drain (bits + 8) (bits + 8) val2 out
    b32Go bs r.1 r.2.1 r.2.2

/-- Embedding of `b32(buf)` on a byte list. -/
def b32 (buf : List Nat) : String := ⟨b32Go buf 0 0 []⟩

/-- Numeric value of an upper-case hexadecimal digit. -/
def hexVal (c : Char) : Nat :=
  if '0' ≤ c ∧ c ≤ '9' then c.toNat - '0'.toNat
  else if 'A' ≤ c ∧ c ≤ 'F' then c.toNat - 'A'.toNat + 10
  else 0

/-- Embedding of `Buffer.from(cleaned,'hex')` on the validated upper-case
hex string: consecutive digit pairs become bytes. -/
def hexToBytes : List Char → List Nat
  | c1 :: c2 :: rest => (16 * hexVal c1 + hexVal c2) :: hexToBytes rest
  | _ => []

/-- Character class of the `/^[0-9A-F]{48}$/` test. -/
def isHexUp (c : Char) : Bool :=
  ('0' ≤ c && c ≤ '9') || ('A' ≤ c && c ≤ 'F')

/-- The `/^[0-9A-F]{48}$/` regular-expression test. -/
def hexOk (s : String) : Prop := s.length = 48 ∧ s.data.all isHexUp = true

instance : DecidablePred hexOk := fun s => by unfold hexOk; infer_instance

/-- Embedding of `rawToAddr(hex)`: normalize, validate against
`/^[0-9A-F]{48}$/`, then base-32 encode the 24 decoded bytes; malformed
input yields the sentinel `'INVALID_ADDRESS'`. -/
def rawToAddr (hex : Option String) : String :=
  let cleaned := norm hex
  if hexOk cleaned then b32 (hexToBytes cleaned.data) else "INVALID_ADDRESS"

/- ========== Block collection / sort / dedup-and-limit (lines 23, 354-377) ========== -/

/-- The configured row limit, `const MAX_ROWS = 20`. -/
def MAX_ROWS : Nat := 20

/-- The fields of a block record the pipeline touches.  Heights arrive as
canonical decimal strings and are compared via `BigInt`, so they are
modelled by their integer value. -/
structure Block where
  height : Nat
  signerPublicKey : String
deriving DecidableEq

/-- One iteration of the per-harvester fetch loop: a failed request is
swallowed by `catch{}` and contributes nothing, a successful response
appends its (possibly absent) `data` blocks. -/
def collectStep (acc : List Block) (r : Except Unit (Option (List Block))) : List Block :=
  match r with
  | .error _ => acc
  | .ok d => acc ++ d.getD []

/-- Embedding of the per-harvester block fetch loop (lines 354-362): each
entry of `results` is the outcome of one key's `/blocks?...` query. -/
def collectBlocks (results : List (Except Unit (Option (List Block)))) : List Block :=
  results.foldl collectStep []

/-- The ordering induced by the sort comparator
`(a,b)=>{ah===bh?0:(ah<bh?1:-1)}`: `a` sorts no later than `b` iff
`b.height ≤ a.height` (descending by exact integer comparison). -/
def heightDescLe (a b : Block) : Prop := b.height ≤ a.height

instance : DecidableRel heightDescLe := fun _ b => Nat.decLe b.height _

instance : IsTotal Block heightDescLe := ⟨fun a b => Nat.le_total b.height a.height⟩

instance : IsTrans Block heightDescLe := ⟨fun _ _ _ hab hbc => Nat.le_trans hbc hab⟩

/-- Embedding of `blocks.sort(comparator)`: JavaScript's sort is stable, so
it is modelled by the stable insertion sort with the same ordering. -/
def sortBlocksDesc (l : List Block) : List Block := List.insertionSort heightDescLe l

/-- Embedding of the dedup-and-limit loop (lines 372-377): skip heights
already in `seen`, stop (`break`) once `rows` reached `MAX_ROWS`, else
append the block as the next row. -/
def dedupLimit (maxRows : Nat) : List Nat → List Block → List Block → List Block
  | _, rows, [] => rows
  | seen, rows, b :: bs =>
    if b.height ∈ seen then dedupLimit maxRows seen rows bs
    else if maxRows ≤ rows.length then rows
    else dedupLimit maxRows (b.height :: seen) (rows ++ [b]) bs

/-- The blocks that become report rows, in row order. -/
def reportBlocks (results : List (Except Unit (Option (List Block)))) : List Block :=
  dedupLimit MAX_ROWS [] [] (sortBlocksDesc (collectBlocks results))

/-- The heights of the final report rows, in row order. -/
def reportHeights (results : List (Except Unit (Option (List Block)))) : List Nat :=
  (reportBlocks results).map Block.height

/- ========= Importance percentage and epoch parsing (lines 209-215, 332) ========= -/

/-- Embedding of `impPct(imp, total)`: the numerator defaults to `'0'` and
the denominator to `'1'` (`imp ?? '0'`, `total ?? '1'`); the quote-stripped
decimal strings are modelled by their parsed values.  BigInt division by a
zero denominator throws a `RangeError`, modelled as `.error`. -/
def impPct (imp total : Option Nat) : Except Unit String :=
  let i := imp.getD 0
  let t := total.getD 1
  if t = 0 then .error ()
  else
    let scale := 10 ^ 6
    let v := i * 100 * scale / t
    .ok (toString (v / scale) ++ "." ++ padStart (toString (v % scale)) 6 '0' ++ "%")

/-- First maximal run of decimal digits: the `/\d+/` regex match. -/
def firstDigitRun (cs : List Char) : List Char :=
  (cs.dropWhile (fun c => !c.isDigit)).takeWhile (fun c => c.isDigit)

/-- Numeric value (`Number(...)`) of the matched digit run. -/
def digitsToNat (ds : List Char) : Nat :=
  ds.foldl (fun n c => 10 * n + (c.toNat - '0'.toNat)) 0

/-- Embedding of `Number(net.network.epochAdjustment.match(/\d+/)[0])`:
an absent field throws (`.match` of `undefined`), and a digit-free string
throws (`[0]` of `null`); both bubble to the top-level catch, which exits
with a non-zero status. -/
def parseEpoch (epochAdjustment : Option String) : Except Unit Nat :=
  match epochAdjustment with
  | none => .error ()
  | some s =>
    match firstDigitRun s.data with
    | [] => .error ()
    | ds => .ok (digitsToNat ds)

/-- Embedding of the metadata-load phase of `main` (lines 329-340), which
runs outside any try/catch, so any throw aborts the run through the
top-level catch with exit status 1.  `mosaicFetch` is the outcome of the
`/mosaics/{currencyMosaicId}` request: `.error` when `fetchJson` threw —
a non-OK HTTP status, which is what an absent (normalized to the empty
string) or malformed currency id produces — `.ok none` a response whose
`mosaic` object is absent (the `mosaic.mosaic.divisibility` access then
throws a `TypeError`), and `.ok (some div)` a response whose
`divisibility` field `div` may itself be absent and is carried through
unvalidated, as is `totalChainImportance`. -/
def loadConfig (epochAdjustment : Option String)
    (mosaicFetch : Except Unit (Option (Option Nat)))
    (totalChainImportance : Option Nat) :
    Except Unit (Nat × Option Nat × Option Nat) :=
  match parseEpoch epochAdjustment with
  | .error _ => .error ()
  | .ok epoch =>
    match mosaicFetch with
    | .error _ => .error ()
    | .ok none => .error ()
    | .ok (some div) => .ok (epoch, div, totalChainImportance)

/-- The call `roundXYM(bal, div)` as made by `main` with the loaded,
unvalidated divisibility: `10n ** BigInt(div)` throws a `TypeError` on an
absent divisibility before any arithmetic, so formatting the first row
aborts the run. -/
def roundXYMRun (amount : Option Nat) (div : Option Nat) : Except Unit String :=
  match div with
  | none => .error ()
  | some d => .ok (roundXYM amount d)

/- ========= Accounts, cache, linked-key resolution (lines 346-392) ========= -/

/-- One entry of an account's mosaic balance list. -/
structure Mosaic where
  id : Option String
  amount : Nat
deriving DecidableEq

/-- The fields of an `/accounts/{publicKey}` snapshot the code touches;
`linkedPublicKey` collapses `supplementalPublicKeys?.linked?.publicKey`
(absent at any level means `none`). -/
structure Account where
  address : Option String
  mosaics : Option (List Mosaic)
  importance : Option Nat
  linkedPublicKey : Option String

/-- Embedding of the balance lookup (line 389):
`acc.mosaics.find(m=>norm(m.id)===mosaicId)?.amount ?? 0`.  When the
`mosaics` array itself is absent, the `.find` property access throws an
uncaught `TypeError` (`.error`); a present list with no matching entry
yields the zero default. -/
def balLookup (mosaics : Option (List Mosaic)) (mosaicId : String) : Except Unit Nat :=
  match mosaics with
  | none => .error ()
  | some ms => .ok (((ms.find? (fun m => norm m.id == mosaicId)).map Mosaic.amount).getD 0)

/-- Lookup (`accCache.get`) on the association-list model of the `Map`. -/
def lookupAcc : List (String × Account) → String → Option Account
  | [], _ => none
  | (k, a) :: rest, q => if q = k then some a else lookupAcc rest q

/-- Embedding of `getAcc` (lines 347-349): on a cache miss the snapshot is
fetched from the node — modelled by the run's remote state `store` — and
inserted; the third component logs which keys were actually fetched. -/
def getAcc (store : String → Account) (cache : List (String × Account)) (k : String) :
    Account × List (String × Account) × List String :=
  match lookupAcc cache k with
  | some a => (a, cache, [])
  | none => (store k, (k, store k) :: cache, [k])

/-- Embedding of the linked-key resolution (lines 379-383): fetch the
signer's snapshot, follow `linkedPublicKey` when declared
(`?? b.signerPublicKey` otherwise), and fetch the resolved main account,
whose snapshot feeds the row's address, balance and importance. -/
def resolveMain (store : String → Account) (cache : List (String × Account))
    (signer : String) : Account × List (String × Account) × List String :=
  let r1 := getAcc store cache signer
  let mainKey := r1.1.linkedPublicKey.getD signer
  let r2 := getAcc store r1.2.1 mainKey
  (r2.1, r2.2.1, r1.2.2 ++ r2.2.2)

/-- The run's account activity: one `resolveMain` per processed block, in
block order, threading the cache and collecting the resolved snapshots
and the fetch log. -/
def resolveRun (store : String → Account) :
    List String → List (String × Account) →
      List Account × List (String × Account) × List String
  | [], c => ([], c, [])
  | s :: ss, c =>
    let r := resolveMain store c s
    let rest := resolveRun store ss r.2.1
    (r.1 :: rest.1, rest.2.1, r.2.2 ++ rest.2.2)

/-- The cache faithfully mirrors the run's remote state. -/
def cacheConsistent (store : String → Account) (cache : List (String × Account)) : Prop :=
  ∀ q a, lookupAcc cache q = some a → a = store q

/- ===================== CSV escaping (lines 291-295) ===================== -/

/-- The `/^[=+\-@\t\r\n]/` formula-trigger character class. -/
def isFormulaTrigger (c : Char) : Bool :=
  c = '=' || c = '+' || c = '-' || c = '@' || c = '\t' || c = '\r' || c = '\n'

/-- Stage one of `csvEscape`: prefix a neutralizing apostrophe when the
first character is a formula trigger. -/
def harden (s : String) : String :=
  match s.data with
  | c :: _ => if isFormulaTrigger c then (⟨['\x27']⟩ : String) ++ s else s
  | [] => s

/-- The `/[",\r\n]/` needs-quoting character class. -/
def needsQuote (c : Char) : Bool :=
  c = '"' || c = ',' || c = '\r' || c = '\n'

/-- Embedding of the global double-quote replacement in `csvEscape`:
every double-quote character is doubled. -/
def doubleQuotes : List Char → List Char
  | [] => []
  | c :: rest =>
    if c = '"' then '"' :: '"' :: doubleQuotes rest else c :: doubleQuotes rest

/-- Stage two of `csvEscape`: RFC4180-style quoting of the hardened value. -/
def rfcQuote (s : String) : String :=
  if s.data.any needsQuote then
    "\"" ++ (⟨doubleQuotes s.data⟩ : String) ++ "\""
  else s

/-- Embedding of `csvEscape(v)` on an actual string (`String(v ?? '')`
turns a `null`/`undefined` cell into `""` before this). -/
def csvEscape (v : String) : String := rfcQuote (harden v)

end HarvestReport

namespace HarvestReport

/- ===================== Lemmas about the codec ===================== -/

theorem b32Char_mem (i : Nat) : b32Char i ∈ B32 := by
  unfold b32Char
  rcases h : B32[i]? with _ | c
  · rw [List.getD_eq_getElem?_getD, h]
    decide
  · rw [List.getD_eq_getElem?_getD, h]
    exact List.getElem?_mem h

theorem b32Drain_spec :
    ∀ (fuel bits val : Nat) (out : List Char), bits ≤ fuel →
      (b32Drain fuel bits val out).1 = bits % 5
        ∧ (b32Drain fuel bits val out).2.2.length = out.length + bits / 5
        ∧ ∀ c ∈ (b32Drain fuel bits val out).2.2, c ∈ out ∨ c ∈ B32 := by
  intro fuel
  induction fuel with
  | zero =>
    intro bits val out hb
    have : bits = 0 := Nat.le_zero.mp hb
    subst this
    exact ⟨rfl, by simp [b32Drain], fun c hc => Or.inl hc⟩
  | succ fuel ih =>
    intro bits val out hb
    by_cases h5 : 5 ≤ bits
    · have hrec := ih (bits - 5) val
        (out ++ [b32Char ((val >>> (bits - 5)) &&& 31)]) (by omega)
      rw [show b32Drain (fuel + 1) bits val out
          = b32Drain fuel (bits - 5) val
              (out ++ [b32Char ((val >>> (bits - 5)) &&& 31)]) from by
        simp [b32Drain, h5]]
      refine ⟨by rw [hrec.1]; omega, by rw [hrec.2.1]; simp; omega, ?_⟩
      intro c hc
      rcases hrec.2.2 c hc with h | h
      · rcases List.mem_append.mp h with h' | h'
        · exact Or.inl h'
        · have : c = b32Char ((val >>> (bits - 5)) &&& 31) := by simpa using h'
          exact Or.inr (this ▸ b32Char_mem _)
      · exact Or.inr h
    · rw [show b32Drain (fuel + 1) bits val out = (bits, val, out) from by
        simp [b32Drain, h5]]
      refine ⟨by simp; omega, by simp; omega, fun c hc => Or.inl hc⟩

theorem b32Go_spec :
    ∀ (bs : List Nat) (bits val : Nat) (out : List Char), bits < 5 →
      (b32Go bs bits val out).length
          = out.length + (bits + 8 * bs.length) / 5
            + (if (bits + 8 * bs.length) % 5 = 0 then 0 else 1)
        ∧ ∀ c ∈ b32Go bs bits val out, c ∈ out ∨ c ∈ B32 := by
  intro bs
  induction bs with
  | nil =>
    intro bits val out hb
    simp only [b32Go, List.length_nil]
    by_cases h0 : 0 < bits
    · rw [if_pos h0]
      constructor
      · simp only [List.length_append, List.length_singleton, Nat.mul_zero, Nat.add_zero]
        split_ifs <;> omega
      · intro c hc
        rcases List.mem_append.mp hc with h | h
        · exact Or.inl h
        · have : c = b32Char ((val <<< (5 - bits)) &&& 31) := by simpa using h
          exact Or.inr (this ▸ b32Char_mem _)
    · rw [if_neg h0]
      refine ⟨by split_ifs <;> omega, fun c hc => Or.inl hc⟩
  | cons b bs ih =>
    intro bits val out hb
    have hds := b32Drain_spec (bits + 8) (bits + 8) (((val <<< 8) ||| b) % 2 ^ 32)
      out le_rfl
    obtain ⟨h1, h2, h3⟩ := hds
    have hlt : (bits + 8) % 5 < 5 := Nat.mod_lt _ (by norm_num)
    have hrec := ih (b32Drain (bits + 8) (bits + 8) (((val <<< 8) ||| b) % 2 ^ 32) out).1
      (b32Drain (bits + 8) (bits + 8) (((val <<< 8) ||| b) % 2 ^ 32) out).2.1
      (b32Drain (bits + 8) (bits + 8) (((val <<< 8) ||| b) % 2 ^ 32) out).2.2
      (h1 ▸ hlt)
    rw [show b32Go (b :: bs) bits val out
        = b32Go bs (b32Drain (bits + 8) (bits + 8) (((val <<< 8) ||| b) % 2 ^ 32) out).1
            (b32Drain (bits + 8) (bits + 8) (((val <<< 8) ||| b) % 2 ^ 32) out).2.1
            (b32Drain (bits + 8) (bits + 8) (((val <<< 8) ||| b) % 2 ^ 32) out).2.2
          from rfl]
    constructor
    · rw [hrec.1, h1, h2]
      simp only [List.length_cons]
      split_ifs <;> omega
    · intro c hc
      rcases hrec.2 c hc with h | h
      · rcases h3 c h with h' | h'
        · exact Or.inl h'
        · exact Or.inr h'
      · exact Or.inr h

theorem hexToBytes_length : ∀ l : List Char, (hexToBytes l).length = l.length / 2
  | [] => rfl
  | [_] => by simp [hexToBytes]
  | _ :: _ :: rest => by
    simp only [hexToBytes, List.length_cons, hexToBytes_length rest]
    omega

/-- C4: both monetary conversions agree with the spec's integer-arithmetic
formulas, and the concrete examples hold: `roundXYM 1_500_000 6 = "2"`,
`decXYM 1_500_000 6 = "1.500000"`. -/
theorem c4_money_conversions (a d : Nat) :
    roundXYM (some a) d = balanceDisplaySpec a (10 ^ d)
      ∧ decXYM (some a) d = rewardDisplaySpec a (10 ^ d) d
      ∧ roundXYM (some 1500000) 6 = "2"
      ∧ decXYM (some 1500000) 6 = "1.500000" :=
  ⟨rfl, rfl, by decide, by decide⟩

/- ============ Lemmas about the dedup-and-limit pipeline ============ -/

theorem dedupLimit_spec (maxRows : Nat) :
    ∀ (l : List Block) (seen : List Nat) (rows : List Block),
      List.Pairwise heightDescLe l →
      List.Pairwise (fun a b : Block => b.height < a.height) rows →
      (∀ r ∈ rows, r.height ∈ seen) →
      (∀ x ∈ l, ∀ r ∈ rows, x.height ≤ r.height) →
      rows.length ≤ maxRows →
      List.Pairwise (fun a b : Block => b.height < a.height)
          (dedupLimit maxRows seen rows l)
        ∧ (dedupLimit maxRows seen rows l).length ≤ maxRows := by
  intro l
  induction l with
  | nil =>
    intro seen rows _ h1 _ _ h5
    exact ⟨h1, h5⟩
  | cons b bs ih =>
    intro seen rows hsorted h1 h2 h3 h5
    have hb_bs : ∀ x ∈ bs, x.height ≤ b.height :=
      fun x hx => (List.pairwise_cons.mp hsorted).1 x hx
    have hbs : List.Pairwise heightDescLe bs := (List.pairwise_cons.mp hsorted).2
    by_cases hseen : b.height ∈ seen
    · rw [show dedupLimit maxRows seen rows (b :: bs)
          = dedupLimit maxRows seen rows bs from by simp [dedupLimit, hseen]]
      exact ih seen rows hbs h1 h2
        (fun x hx r hr => h3 x (List.mem_cons_of_mem b hx) r hr) h5
    · by_cases hfull : maxRows ≤ rows.length
      · rw [show dedupLimit maxRows seen rows (b :: bs) = rows from by
          simp [dedupLimit, hseen, hfull]]
        exact ⟨h1, h5⟩
      · rw [show dedupLimit maxRows seen rows (b :: bs)
            = dedupLimit maxRows (b.height :: seen) (rows ++ [b]) bs from by
          simp [dedupLimit, hseen, hfull]]
        apply ih
        · exact hbs
        · rw [List.pairwise_append]
          refine ⟨h1, List.pairwise_singleton _ _, ?_⟩
          intro r hr b' hb'
          have hb'eq : b' = b := by simpa using hb'
          subst hb'eq
          have hle : b'.height ≤ r.height := h3 b' (List.mem_cons_self b' bs) r hr
          have hne : b'.height ≠ r.height := fun he => hseen (he ▸ h2 r hr)
          omega
        · intro r hr
          rcases List.mem_append.mp hr with h | h
          · exact List.mem_cons_of_mem _ (h2 r h)
          · have : r = b := by simpa using h
            subst this
            exact List.mem_cons_self _ _
        · intro x hx r hr
          rcases List.mem_append.mp hr with h | h
          · exact h3 x (List.mem_cons_of_mem b hx) r h
          · have : r = b := by simpa using h
            subst this
            exact hb_bs x hx
        · simp only [List.length_append, List.length_singleton]
          omega

theorem collectBlocks_skip_error
    (pre post : List (Except Unit (Option (List Block)))) :
    collectBlocks (pre ++ Except.error () :: post) = collectBlocks (pre ++ post) := by
  unfold collectBlocks
  generalize ([] : List Block) = acc
  induction pre generalizing acc with
  | nil => rfl
  | cons a pre ih =>
    simp only [List.cons_append, List.foldl_cons]
    exact ih _

/- ============ Lemmas about the account cache ============ -/

theorem getAcc_fst (store : String → Account) (cache : List (String × Account))
    (k : String) (h : cacheConsistent store cache) : (getAcc store cache k).1 = store k := by
  rcases hl : lookupAcc cache k with _ | a
  · simp only [getAcc, hl]
  · simp only [getAcc, hl]
    exact h k a hl

theorem getAcc_consistent {store : String → Account} {cache : List (String × Account)}
    (k : String) (h : cacheConsistent store cache) :
    cacheConsistent store (getAcc store cache k).2.1 := by
  rcases hl : lookupAcc cache k with _ | a
  · simp only [getAcc, hl]
    intro q b hq
    unfold lookupAcc at hq
    split at hq
    next heq =>
      cases hq
      exact heq ▸ rfl
    next => exact h q b hq
  · simp only [getAcc, hl]
    exact h

theorem getAcc_mono {store : String → Account} {cache : List (String × Account)}
    {q : String} {a : Account} (k : String) (h : lookupAcc cache q = some a) :
    lookupAcc (getAcc store cache k).2.1 q = some a := by
  rcases hl : lookupAcc cache k with _ | b
  · simp only [getAcc, hl]
    unfold lookupAcc
    split
    next heq =>
      rw [heq] at h
      rw [h] at hl
      cases hl
    next => exact h
  · simp only [getAcc, hl]
    exact h

theorem getAcc_log_none {store : String → Account} {cache : List (String × Account)}
    {k k' : String} (h : k' ∈ (getAcc store cache k).2.2) : lookupAcc cache k' = none := by
  rcases hl : lookupAcc cache k with _ | a
  · simp only [getAcc, hl] at h
    have : k' = k := by simpa using h
    exact this ▸ hl
  · simp only [getAcc, hl] at h
    cases h

theorem getAcc_log_incache {store : String → Account} {cache : List (String × Account)}
    {k k' : String} (h : k' ∈ (getAcc store cache k).2.2) :
    ∃ a, lookupAcc (getAcc store cache k).2.1 k' = some a := by
  rcases hl : lookupAcc cache k with _ | a
  · simp only [getAcc, hl] at h ⊢
    have hk : k' = k := by simpa using h
    subst hk
    refine ⟨store k', ?_⟩
    unfold lookupAcc
    rw [if_pos rfl]
  · simp only [getAcc, hl] at h
    cases h

theorem getAcc_log_nodup (store : String → Account) (cache : List (String × Account))
    (k : String) : (getAcc store cache k).2.2.Nodup := by
  rcases hl : lookupAcc cache k with _ | a
  · simp [getAcc, hl]
  · simp [getAcc, hl]

theorem resolveMain_fst {store : String → Account} {cache : List (String × Account)}
    (signer : String) (h : cacheConsistent store cache) :
    (resolveMain store cache signer).1
      = store ((store signer).linkedPublicKey.getD signer) := by
  show (getAcc store (getAcc store cache signer).2.1
      ((getAcc store cache signer).1.linkedPublicKey.getD signer)).1 = _
  rw [getAcc_fst store cache signer h]
  exact getAcc_fst _ _ _ (getAcc_consistent signer h)

theorem resolveMain_consistent {store : String → Account} {cache : List (String × Account)}
    (signer : String) (h : cacheConsistent store cache) :
    cacheConsistent store (resolveMain store cache signer).2.1 :=
  getAcc_consistent _ (getAcc_consistent signer h)

theorem resolveMain_mono {store : String → Account} {cache : List (String × Account)}
    {q : String} {a : Account} (signer : String) (h : lookupAcc cache q = some a) :
    lookupAcc (resolveMain store cache signer).2.1 q = some a :=
  getAcc_mono _ (getAcc_mono _ h)

theorem resolveMain_log_none {store : String → Account} {cache : List (String × Account)}
    {signer k' : String} (h : k' ∈ (resolveMain store cache signer).2.2) :
    lookupAcc cache k' = none := by
  rcases List.mem_append.mp h with h' | h'
  · exact getAcc_log_none h'
  · have h2 := getAcc_log_none h'
    by_contra hne
    rcases Option.ne_none_iff_exists'.mp hne with ⟨a, ha⟩
    rw [getAcc_mono _ ha] at h2
    cases h2

theorem resolveMain_log_incache {store : String → Account} {cache : List (String × Account)}
    {signer k' : String} (h : k' ∈ (resolveMain store cache signer).2.2) :
    ∃ a, lookupAcc (resolveMain store cache signer).2.1 k' = some a := by
  rcases List.mem_append.mp h with h' | h'
  · rcases getAcc_log_incache h' with ⟨a, ha⟩
    exact ⟨a, getAcc_mono _ ha⟩
  · exact getAcc_log_incache h'

theorem resolveMain_log_nodup (store : String → Account) (cache : List (String × Account))
    (signer : String) : (resolveMain store cache signer).2.2.Nodup := by
  show ((getAcc store cache signer).2.2
      ++ (getAcc store (getAcc store cache signer).2.1
          ((getAcc store cache signer).1.linkedPublicKey.getD signer)).2.2).Nodup
  rw [List.nodup_append]
  refine ⟨getAcc_log_nodup _ _ _, getAcc_log_nodup _ _ _, ?_⟩
  intro k hk1 hk2
  rcases getAcc_log_incache hk1 with ⟨a, ha⟩
  rw [getAcc_log_none hk2] at ha
  cases ha

theorem resolveRun_spec (store : String → Account) (ss : List String) :
    ∀ cache, cacheConsistent store cache →
      (resolveRun store ss cache).1
          = ss.map (fun s => store ((store s).linkedPublicKey.getD s))
        ∧ (resolveRun store ss cache).2.2.Nodup
        ∧ ∀ k ∈ (resolveRun store ss cache).2.2, lookupAcc cache k = none := by
  induction ss with
  | nil =>
    intro cache _
    exact ⟨rfl, List.nodup_nil, by simp [resolveRun]⟩
  | cons s ss ih =>
    intro cache h
    obtain ⟨ih1, ih3, ih4⟩ :=
      ih (resolveMain store cache s).2.1 (resolveMain_consistent s h)
    refine ⟨?_, ?_, ?_⟩
    · show (resolveMain store cache s).1
          :: (resolveRun store ss (resolveMain store cache s).2.1).1 = _
      rw [resolveMain_fst s h, ih1]
      rfl
    · show ((resolveMain store cache s).2.2
          ++ (resolveRun store ss (resolveMain store cache s).2.1).2.2).Nodup
      rw [List.nodup_append]
      refine ⟨resolveMain_log_nodup _ _ _, ih3, ?_⟩
      intro k hk1 hk2
      rcases resolveMain_log_incache hk1 with ⟨a, ha⟩
      rw [ih4 k hk2] at ha
      cases ha
    · intro k hk
      rcases List.mem_append.mp hk with h' | h'
      · exact resolveMain_log_none h'
      · have hnone := ih4 k h'
        by_contra hne
        rcases Option.ne_none_iff_exists'.mp hne with ⟨a, ha⟩
        rw [resolveMain_mono s ha] at hnone
        cases hnone

/- ============ Lemmas about CSV escaping ============ -/

theorem rfcQuote_head (s : String) (c : Char) (h : s.data.head? = some c) :
    (rfcQuote s).data.head? = some c ∨ (rfcQuote s).data.head? = some '"' := by
  unfold rfcQuote
  split
  · right
    rw [String.data_append, String.data_append]
    rfl
  · exact Or.inl h

/-- C1: for every input list of per-key block query results, the final row
set has strictly descending heights (exact integer comparison), pairwise
distinct heights, and at most `MAX_ROWS` rows. -/
theorem c1_report_invariants (results : List (Except Unit (Option (List Block)))) :
    List.Pairwise (fun a b : Nat => a > b) (reportHeights results)
      ∧ (reportHeights results).Nodup
      ∧ (reportHeights results).length ≤ MAX_ROWS := by
  have hsorted : List.Pairwise heightDescLe (sortBlocksDesc (collectBlocks results)) :=
    List.sorted_insertionSort heightDescLe _
  have h := dedupLimit_spec MAX_ROWS (sortBlocksDesc (collectBlocks results)) [] []
    hsorted List.Pairwise.nil (by simp) (by simp) (by simp)
  have hgt : List.Pairwise (fun a b : Nat => a > b) (reportHeights results) :=
    List.pairwise_map.mpr (h.1.imp (fun hab => hab))
  refine ⟨hgt, hgt.imp (fun hab => Nat.ne_of_gt hab), ?_⟩
  rw [reportHeights, List.length_map]
  exact h.2

/-- C3: a failed per-key block query contributes zero blocks without
aborting the other keys, and the concrete scenario (one failed key, one
key returning three blocks plus a duplicated height) yields exactly the
three unique heights in descending order, with no error raised. -/
theorem c3_failed_key_tolerated :
    (∀ (pre post : List (Except Unit (Option (List Block)))),
        collectBlocks (pre ++ Except.error () :: post) = collectBlocks (pre ++ post))
      ∧ reportHeights [Except.error (),
          Except.ok (some [⟨100, "KEY2"⟩, ⟨90, "KEY2"⟩, ⟨80, "KEY2"⟩, ⟨90, "DUPLICATE"⟩])]
        = [100, 90, 80] :=
  ⟨collectBlocks_skip_error, by decide⟩

/-- C5: for every input, when the normalized form passes the 48-hex test
the codec returns exactly 39 symbols drawn from the 32-symbol alphabet,
and otherwise it returns the sentinel `'INVALID_ADDRESS'`; the embedding
is total, so no exception is ever raised. -/
theorem c5_rawToAddr_shape (o : Option String) :
    (hexOk (norm o) →
        (rawToAddr o).length = 39 ∧ ∀ c ∈ (rawToAddr o).data, c ∈ B32)
      ∧ (¬ hexOk (norm o) → rawToAddr o = "INVALID_ADDRESS") := by
  constructor
  · intro h
    have hra : rawToAddr o = b32 (hexToBytes (norm o).data) := by
      show (if hexOk (norm o) then b32 (hexToBytes (norm o).data)
          else "INVALID_ADDRESS") = _
      rw [if_pos h]
    have hlen : (hexToBytes (norm o).data).length = 24 := by
      rw [hexToBytes_length]
      have h48 : (norm o).data.length = 48 := h.1
      omega
    have hgo := b32Go_spec (hexToBytes (norm o).data) 0 0 [] (by norm_num)
    rw [hlen] at hgo
    constructor
    · rw [hra]
      show (b32Go (hexToBytes (norm o).data) 0 0 []).length = 39
      rw [hgo.1]
      decide
    · intro c hc
      rw [hra] at hc
      rcases hgo.2 c hc with h' | h'
      · exact absurd h' (List.not_mem_nil c)
      · exact h'
  · intro h
    show (if hexOk (norm o) then b32 (hexToBytes (norm o).data)
        else "INVALID_ADDRESS") = _
    rw [if_neg h]

/-- C5 witness: a valid 48-hex raw identifier encodes to 39 symbols, and a
malformed input yields the sentinel. -/
theorem c5_witness :
    (rawToAddr (some "688B9A0A8F9E8A34BF840F0B5CE6AF8B9AB3C10ED1DC1B88")).length = 39
      ∧ rawToAddr (some "hello") = "INVALID_ADDRESS" :=
  ⟨((c5_rawToAddr_shape (some "688B9A0A8F9E8A34BF840F0B5CE6AF8B9AB3C10ED1DC1B88")).1
      (by decide)).1,
    (c5_rawToAddr_shape (some "hello")).2 (by decide)⟩

/-- C2: a failed statement query contributes zero while the other source is
still summed exactly, and the concrete outage scenario (block-level query
fails, transaction-level returns one matching receipt of amount 2_000_000
at divisibility 6) displays as `"2.000000"`. -/
theorem c2_reward_outage_tolerant :
    (∀ raw mosaic txRes, reward raw mosaic (.error ()) txRes = srcSum raw mosaic txRes)
    ∧ (∀ raw mosaic blockRes, reward raw mosaic blockRes (.error ()) = srcSum raw mosaic blockRes)
    ∧ decXYM (some (reward "TESTADDRESS" "6BED913FA20223F8" (.error ())
        (.ok (some [⟨some [⟨some "TESTADDRESS", none, some "6BED913FA20223F8", 2000000⟩],
          none⟩])))) 6 = "2.000000" :=
  ⟨fun _ _ _ => Nat.zero_add _, fun _ _ _ => Nat.add_zero _, by decide⟩

/-- C6 counterexample: a metadata response in which `totalChainImportance`
is absent does not abort the run: `impPct` substitutes the denominator
`'1'` (`total ?? '1'`) and happily produces a display value, so the report
is produced with substituted values. -/
theorem c6_counterexample :
    impPct (some 500) none = Except.ok "50000.000000%"
      ∧ impPct (some 500) none ≠ Except.error () :=
  ⟨rfl, fun h => Except.noConfusion h⟩

/-- C6 (amended): the metadata-load phase runs outside any try/catch, so
a missing epoch-offset field, an epoch-offset string with no digits (the
only strings its digit extraction rejects), a failed currency-descriptor
request (which an absent or malformed reward-currency id produces), and a
descriptor response without its mosaic object all abort the run fatally
at load; an absent divisibility aborts fatally when the first row's
balance is converted, and an explicit zero total-importance denominator
aborts fatally when a row's importance is computed; but a missing
total-chain-importance field does not abort: it is substituted with
denominator 1 and the report is produced with substituted values. -/
theorem c6_amended :
    parseEpoch none = Except.error ()
      ∧ (∀ s, firstDigitRun s.data = [] → parseEpoch (some s) = Except.error ())
      ∧ (∀ e t, loadConfig e (Except.error ()) t = Except.error ())
      ∧ (∀ e t, loadConfig e (Except.ok none) t = Except.error ())
      ∧ (∀ a, roundXYMRun a none = Except.error ())
      ∧ (∀ i, impPct i (some 0) = Except.error ())
      ∧ (∀ i, impPct i none = impPct i (some 1)) := by
  refine ⟨rfl, ?_, ?_, ?_, fun _ => rfl, fun _ => rfl, fun _ => rfl⟩
  · intro s h
    simp only [parseEpoch, h]
  · intro e t
    cases h : parseEpoch e <;> simp [loadConfig, h]
  · intro e t
    cases h : parseEpoch e <;> simp [loadConfig, h]

/-- C6 witness: the amended fatality applied at a concrete digit-free
epoch-offset string. -/
theorem c6_amended_witness :
    parseEpoch (some "epoch adjustment pending") = Except.error () :=
  c6_amended.2.1 "epoch adjustment pending" (by decide)

/-- C7 counterexample: an account response whose mosaic balance list is
absent makes the balance lookup throw an uncaught `TypeError` instead of
substituting a zero balance, so that row is not produced. -/
theorem c7_counterexample :
    balLookup none "6BED913FA20223F8" = Except.error ()
      ∧ balLookup none "6BED913FA20223F8" ≠ Except.ok 0 :=
  ⟨rfl, fun h => Except.noConfusion h⟩

/-- C7 (amended): statement responses with an absent `data` array or
absent receipts arrays substitute the empty-list default and contribute
zero without failing, and every account whose mosaic list is present but
has no entry matching the reward currency — the empty list included —
gets the zero-balance default, the row still being produced; but an
account response lacking the mosaic balance list entirely raises a fatal
`TypeError`. -/
theorem c7_amended :
    (∀ (ms : List Mosaic) (mid : String),
        (∀ m ∈ ms, norm m.id ≠ mid) → balLookup (some ms) mid = Except.ok 0)
      ∧ (∀ raw mosaic, srcSum raw mosaic (Except.ok none) = 0)
      ∧ stmtReceipts ⟨none, none⟩ = []
      ∧ balLookup none "ANY" = Except.error () := by
  refine ⟨?_, fun _ _ => rfl, rfl, rfl⟩
  intro ms mid h
  have hf : ms.find? (fun m => norm m.id == mid) = none := by
    rw [List.find?_eq_none]
    intro m hm
    simpa using h m hm
  simp [balLookup, hf]

/-- C7 witness: the amended zero-balance default applied at a concrete
non-empty mosaic list with no entry matching the reward currency. -/
theorem c7_witness :
    balLookup (some [⟨some "00AA", 7⟩, ⟨none, 3⟩]) "6BED913FA20223F8" = Except.ok 0 :=
  c7_amended.1 [⟨some "00AA", 7⟩, ⟨none, 3⟩] "6BED913FA20223F8" (by decide)

/-- C8: starting from the fresh per-run cache, every processed block's row
snapshot is the linked account's snapshot when the signing key declares a
linked public key and the signing account's otherwise; and lookups are
memoized per public key: every resolution returns exactly the remote
snapshot (later references return the cached snapshot unchanged) and the
fetch log never repeats a key, so each key is fetched at most once. -/
theorem c8_linked_resolution_memoized (store : String → Account) (signers : List String) :
    (resolveRun store signers []).1
        = signers.map (fun s => store ((store s).linkedPublicKey.getD s))
      ∧ (resolveRun store signers []).2.2.Nodup := by
  have h := resolveRun_spec store signers [] (fun q a hq => Option.noConfusion hq)
  exact ⟨h.1, h.2.1⟩

/-- C9: a cell whose first character is a formula-trigger character gets a
neutralizing apostrophe prefixed before RFC4180 quoting is applied, and
the exported cell never begins with a trigger character. -/
theorem c9_csv_formula_neutralized (v : String) (c : Char)
    (h1 : v.data.head? = some c) (h2 : isFormulaTrigger c = true) :
    csvEscape v = rfcQuote ((⟨['\x27']⟩ : String) ++ v)
      ∧ ∀ d, (csvEscape v).data.head? = some d → isFormulaTrigger d = false := by
  have hh : harden v = (⟨['\x27']⟩ : String) ++ v := by
    rcases hv : v.data with _ | ⟨c0, rest⟩
    · rw [hv] at h1
      cases h1
    · rw [hv] at h1
      injection h1 with hc
      subst hc
      simp only [harden, hv, h2, if_true]
  have hcs : csvEscape v = rfcQuote ((⟨['\x27']⟩ : String) ++ v) := by
    unfold csvEscape
    rw [hh]
  refine ⟨hcs, ?_⟩
  intro d hd
  rw [hcs] at hd
  have hhead : (((⟨['\x27']⟩ : String) ++ v)).data.head? = some '\x27' := by
    rw [String.data_append]
    rfl
  rcases rfcQuote_head _ _ hhead with h | h
  · rw [h] at hd
    injection hd with he
    subst he
    decide
  · rw [h] at hd
    injection hd with he
    subst he
    decide

/-- C9 witness: the concrete cell `"=1+2"` is neutralized, and neither
possible first character of an escaped cell is a trigger. -/
theorem c9_witness :
    csvEscape "=1+2" = rfcQuote ((⟨['\x27']⟩ : String) ++ "=1+2")
      ∧ isFormulaTrigger '\x27' = false :=
  ⟨(c9_csv_formula_neutralized "=1+2" '=' rfl rfl).1,
    (c9_csv_formula_neutralized "=1+2" '=' rfl rfl).2 '\x27' (by decide)⟩

/-- C10 counterexample: at divisibility 0 the reward conversion of a
null/undefined amount is `"0.0"`, not `"0."` followed by zero zeros. -/
theorem c10_counterexample : decXYM none 0 = "0.0" ∧ decXYM none 0 ≠ "0." := by
  decide

/-- C10 (amended): a null/undefined amount is treated as zero: the balance
conversion gives `"0"` for every divisibility, and the reward conversion
gives `"0."` followed by `d` zeros for every `d ≥ 1` (for `d = 0` it gives
`"0.0"`); no exception is raised (the functions are total). -/
theorem c10_amended (d : Nat) :
    roundXYM none d = "0"
      ∧ (1 ≤ d → decXYM none d = "0." ++ (⟨List.replicate d '0'⟩ : String))
      ∧ decXYM none 0 = "0.0" := by
  refine ⟨?_, ?_, by decide⟩
  · have hb : 0 < 10 ^ d := Nat.pos_pow_of_pos d (by norm_num)
    show toString ((0 + 10 ^ d / 2) / 10 ^ d) = "0"
    rw [Nat.zero_add, Nat.div_eq_of_lt (Nat.div_lt_self hb (by norm_num))]
    decide
  · intro hd
    obtain ⟨e, rfl⟩ : ∃ e, d = e + 1 := ⟨d - 1, by omega⟩
    show toString (0 / 10 ^ (e + 1)) ++ "." ++ padStart (toString (0 % 10 ^ (e + 1))) (e + 1) '0'
        = "0." ++ (⟨List.replicate (e + 1) '0'⟩ : String)
    rw [Nat.zero_div, Nat.zero_mod]
    apply String.ext
    simp only [String.data_append, padStart]
    show ['0'] ++ ['.'] ++ (List.replicate (e + 1 - 1) '0' ++ ['0'])
        = ['0', '.'] ++ List.replicate (e + 1) '0'
    rw [Nat.add_sub_cancel, ← List.replicate_succ' ]
    simp

/-- C10 witness: the amended statement instantiated at divisibility 6. -/
theorem c10_amended_witness :
    roundXYM none 6 = "0"
      ∧ decXYM none 6 = "0." ++ (⟨List.replicate 6 '0'⟩ : String) :=
  ⟨(c10_amended 6).1, (c10_amended 6).2.1 (by norm_num)⟩

end HarvestReport
